import Mathlib

/-!
Shallow embedding of the Discord AI bot template (`bot.py`): the credential
pool (`ALL_API_KEYS` / `current_api_keys` with `reset_api_keys`), the retry
loop of the `chat` command, and the per-user bounded conversation history.

Modelling conventions:
  * The comma-split configured key list `ALL_API_KEYS` is a parameter
    `allKeys : List String`; the mutable global `current_api_keys` is threaded
    explicitly as `avail : List String`.
  * `random.choice` is modelled by an injected index stream
    `picks : Nat → Nat`; the draw at retry counter `k` picks index
    `picks k % avail.length`.  `random.choice` on an empty list raises
    `IndexError`, modelled by the `Outcome.drawError` result.
  * The network call (`client_ai_dynamic.chat.completions.create`, together
    with client construction) is the injected adapter
    `String → List Entry → Option String`: `some text` is a successful
    completion, `none` is any raised exception.
  * The loop `while current_retries < max_api_retries` is structural
    recursion on the fuel `max_api_retries - current_retries`: every loop
    iteration either breaks out or increments `current_retries`.
-/

/-- Role tag of a conversation entry (the `"role"` field of the dicts in
`user_histories`). -/
inductive Role where
  | system
  | user
  | assistant
deriving DecidableEq, Repr

/-- One conversation entry: a `{"role": ..., "content": ...}` dict. -/
structure Entry where
  role : Role
  content : String
deriving DecidableEq, Repr

/-- `MAX_HISTORY_TURNS = 20` from `bot.py`. -/
def MAX_HISTORY_TURNS : Nat := 20

/-- The history-limiting step of `bot.py` with the bound abstracted:
`if len(history) > bound: history.pop(1)`.  A single conditional removal of
index 1, not a loop. -/
def trimOnce (bound : Nat) (history : List Entry) : List Entry :=
  if history.length > bound then history.eraseIdx 1 else history

/-- The trim as called in the `chat` command, at bound
`MAX_HISTORY_TURNS + 1` (lines 94-95 and 155-156 of `bot.py`). -/
def trimAfterAppend (history : List Entry) : List Entry :=
  trimOnce (MAX_HISTORY_TURNS + 1) history

/-- `reset_api_keys()`: `current_api_keys = list(ALL_API_KEYS)`.  The shallow
copy `list(...)` is value semantics here; the returned pool is the full key
list, and nothing ever mutates `allKeys`. -/
def reset_api_keys (allKeys : List String) : List String := allKeys

/-- `random.choice(avail)` with injected randomness `r`: the element at index
`r % len(avail)`.  Returns `none` exactly on the empty list, where the Python
call would raise `IndexError`. -/
def random_choice (r : Nat) (avail : List String) : Option String :=
  avail[r % avail.length]?

/-- The guarded eviction of `bot.py` lines 141-142:
`if selected_api_key in current_api_keys: current_api_keys.remove(...)`.
Python `list.remove` deletes the first occurrence, i.e. `List.erase`. -/
def remove_key (key : String) (avail : List String) : List String :=
  if avail.contains key then avail.erase key else avail

/-- Terminal outcome of the retry loop. -/
inductive Outcome where
  /-- The adapter returned text; `ai_response_content` is that text. -/
  | success (text : String)
  /-- The loop ended with `current_retries = max_api_retries` (or was never
  entered); `ai_response_content` keeps its default error value. -/
  | allFailed
  /-- The `break` at line 115: pool still empty after a reset. -/
  | noCreds
  /-- `random.choice` called on an empty list (would raise `IndexError`). -/
  | drawError
deriving DecidableEq, Repr

/-- Observable events of one retry-loop execution, for temporal properties. -/
inductive Event where
  | reset
  | drew (key : String)
  | evicted (key : String)
  | succeeded (text : String)
  | noCredsBreak
deriving DecidableEq, Repr

/-- Result of running the retry loop: terminal outcome, final
`current_api_keys`, final `current_retries` (the attempts made), number of
adapter invocations, and the event trace. -/
structure RunResult where
  outcome : Outcome
  avail : List String
  attempts : Nat
  calls : Nat
  events : List Event
deriving DecidableEq, Repr

/-- The retry loop of the `chat` command (`bot.py` lines 108-146), with
`fuel = max_api_retries - current_retries`.  Each iteration: if the pool is
empty, reset it and break with `noCreds` if it is still empty; draw a key at
random; invoke the adapter; on success break with the text; on failure remove
the key from the pool, increment the retry counter and continue. -/
def chatLoop (adapter : String → List Entry → Option String) (picks : Nat → Nat)
    (allKeys : List String) (history : List Entry) :
    Nat → List String → Nat → RunResult
  | 0, avail, retries => ⟨Outcome.allFailed, avail, retries, 0, []⟩
  | fuel + 1, avail, retries =>
    let avail1 := if avail.isEmpty then reset_api_keys allKeys else avail
    let pre : List Event := if avail.isEmpty then [Event.reset] else []
    if avail1.isEmpty then
      ⟨Outcome.noCreds, avail1, retries, 0, pre ++ [Event.noCredsBreak]⟩
    else
      match random_choice (picks retries) avail1 with
      | none => ⟨Outcome.drawError, avail1, retries, 0, pre⟩
      | some key =>
        match adapter key history with
        | some text =>
          ⟨Outcome.success text, avail1, retries, 1,
            pre ++ [Event.drew key, Event.succeeded text]⟩
        | none =>
          let r := chatLoop adapter picks allKeys history fuel
            (remove_key key avail1) (retries + 1)
          ⟨r.outcome, r.avail, r.attempts, r.calls + 1,
            pre ++ [Event.drew key, Event.evicted key] ++ r.events⟩

/-- The retry orchestrator as run by `chat`: the pre-loop reset of line
105-106 (`if not current_api_keys and ALL_API_KEYS: reset_api_keys()`)
followed by the loop with budget `max_api_retries = len(ALL_API_KEYS)` and
`current_retries = 0`. -/
def chatComplete (adapter : String → List Entry → Option String)
    (picks : Nat → Nat) (allKeys : List String) (avail0 : List String)
    (history : List Entry) : RunResult :=
  if avail0.isEmpty && !allKeys.isEmpty then
    let r := chatLoop adapter picks allKeys history allKeys.length
      (reset_api_keys allKeys) 0
    ⟨r.outcome, r.avail, r.attempts, r.calls, Event.reset :: r.events⟩
  else
    chatLoop adapter picks allKeys history allKeys.length avail0 0

/-- The default value of `ai_response_content` (line 98), kept when the loop
exhausts its budget or never runs. -/
def allFailedMsg : String :=
  "Oops! All AI Keys are used up, or the model could not respond to your request. (⊃д⊂) Please try again later."

/-- The message set at line 114 when the pool is still empty after a reset. -/
def noKeysMsg : String :=
  "Oops! No OpenAI API Keys found or configured. Please contact the bot owner! (｡•́︿•̀｡)"

/-- The value of `ai_response_content` after the loop, per terminal outcome.
A `drawError` would be an uncaught exception; no message is produced, and we
map it to the empty string (it is proved unreachable below). -/
def responseContent : Outcome → String
  | Outcome.success text => text
  | Outcome.allFailed => allFailedMsg
  | Outcome.noCreds => noKeysMsg
  | Outcome.drawError => ""

/-- Python `s.startswith(pre)`. -/
def strStartsWith (s pre : String) : Bool :=
  pre.data.isPrefixOf s.data

/-- Result of one whole `chat` command invocation. -/
structure ChatResult where
  outcome : Outcome
  reply : String
  history : List Entry
  avail : List String
  attempts : Nat
  calls : Nat
deriving DecidableEq, Repr

/-- Post-loop part of `chat` (lines 148-156): send `ai_response_content`,
and only if it does not start with `"Oops!"` append it to the history as the
assistant entry and re-trim. -/
def chatFinish (history1 : List Entry) (r : RunResult) : ChatResult :=
  let content := responseContent r.outcome
  if strStartsWith content "Oops!" then
    ⟨r.outcome, content, history1, r.avail, r.attempts, r.calls⟩
  else
    ⟨r.outcome, content,
      trimAfterAppend (history1 ++ [⟨Role.assistant, content⟩]),
      r.avail, r.attempts, r.calls⟩

/-- The `chat` command body for one user (lines 76-156), from the point where
the user's history exists: append the user message, trim, run the retry
orchestrator, and append the assistant reply when one was produced. -/
def chat (adapter : String → List Entry → Option String) (picks : Nat → Nat)
    (allKeys : List String) (avail0 : List String) (history0 : List Entry)
    (message : String) : ChatResult :=
  let history1 := trimAfterAppend (history0 ++ [⟨Role.user, message⟩])
  chatFinish history1 (chatComplete adapter picks allKeys avail0 history1)

/-- Histories of one user reachable through the `chat` command: created as
the single system entry (lines 82-85), then grown by append-then-trim steps
(the user append at lines 90-95 and the assistant append at lines 153-156
both have this shape). -/
inductive HistReachable (sys : Entry) : List Entry → Prop where
  | create : HistReachable sys [sys]
  | append (h : List Entry) (e : Entry) :
      HistReachable sys h → HistReachable sys (trimAfterAppend (h ++ [e]))

/-- `noDrawBeforeResetB c events`: in `events`, no `drew c` occurs before
the first `reset` (a `reset` closes the current generation). -/
def noDrawBeforeResetB (c : String) : List Event → Bool
  | [] => true
  | Event.reset :: _ => true
  | Event.drew k :: rest => (k != c) && noDrawBeforeResetB c rest
  | _ :: rest => noDrawBeforeResetB c rest

/-- `evictStickyB c events`: after every `evicted c`, no `drew c` occurs
before the next `reset`. -/
def evictStickyB (c : String) : List Event → Bool
  | [] => true
  | Event.evicted k :: rest =>
      ((k != c) || noDrawBeforeResetB c rest) && evictStickyB c rest
  | _ :: rest => evictStickyB c rest

/-! ### Helper lemmas -/

theorem remove_key_eq_erase (key : String) (avail : List String) :
    remove_key key avail = avail.erase key := by
  unfold remove_key
  split
  · rfl
  · next h =>
    have hnot : key ∉ avail := by simpa using h
    rw [List.erase_of_not_mem hnot]

theorem random_choice_isSome (r : Nat) (avail : List String) (h : avail ≠ []) :
    (random_choice r avail).isSome = true := by
  unfold random_choice
  have hlen : 0 < avail.length := List.length_pos.mpr h
  rw [List.getElem?_eq_getElem (Nat.mod_lt r hlen)]
  rfl

theorem random_choice_mem (r : Nat) (avail : List String) (key : String)
    (h : random_choice r avail = some key) : key ∈ avail := by
  unfold random_choice at h
  exact List.getElem?_mem h

theorem chatFinish_outcome (history1 : List Entry) (r : RunResult) :
    (chatFinish history1 r).outcome = r.outcome := by
  simp only [chatFinish]
  split <;> rfl

theorem chatLoop_no_drawError (adapter : String → List Entry → Option String)
    (picks : Nat → Nat) (allKeys : List String) (history : List Entry) :
    ∀ fuel avail retries,
      (chatLoop adapter picks allKeys history fuel avail retries).outcome ≠
        Outcome.drawError := by
  intro fuel
  induction fuel with
  | zero => intro avail retries; simp [chatLoop]
  | succ n ih =>
    intro avail retries
    simp only [chatLoop]
    by_cases hA : avail.isEmpty = true <;>
      simp only [hA, if_true, if_false, reset_api_keys, Bool.false_eq_true]
    · by_cases hK : allKeys.isEmpty = true <;>
        simp only [hK, if_true, if_false, Bool.false_eq_true]
      · simp
      · have hne : allKeys ≠ [] := by simpa using hK
        rcases hc : random_choice (picks retries) allKeys with _ | key
        · have := random_choice_isSome (picks retries) allKeys hne
          rw [hc] at this
          simp at this
        · simp only [hc]
          rcases ha : adapter key history with _ | text <;> simp only [ha]
          · exact ih _ _
          · simp
    · have hne : avail ≠ [] := by simpa using hA
      rcases hc : random_choice (picks retries) avail with _ | key
      · have := random_choice_isSome (picks retries) avail hne
        rw [hc] at this
        simp at this
      · simp only [hc]
        rcases ha : adapter key history with _ | text <;> simp only [ha]
        · exact ih _ _
        · simp

theorem chatLoop_avail_subset (adapter : String → List Entry → Option String)
    (picks : Nat → Nat) (allKeys : List String) (history : List Entry) :
    ∀ fuel avail retries, avail ⊆ allKeys →
      (chatLoop adapter picks allKeys history fuel avail retries).avail ⊆
        allKeys := by
  intro fuel
  induction fuel with
  | zero => intro avail retries hsub; simpa [chatLoop] using hsub
  | succ n ih =>
    intro avail retries hsub
    simp only [chatLoop]
    by_cases hA : avail.isEmpty = true <;>
      simp only [hA, if_true, if_false, reset_api_keys, Bool.false_eq_true]
    · by_cases hK : allKeys.isEmpty = true <;>
        simp only [hK, if_true, if_false, Bool.false_eq_true]
      · simp [List.Subset.refl]
      · rcases hc : random_choice (picks retries) allKeys with _ | key <;>
          simp only [hc]
        · exact List.Subset.refl _
        · rcases ha : adapter key history with _ | text <;> simp only [ha]
          · exact ih _ _ (by
              rw [remove_key_eq_erase]
              exact fun x hx => List.mem_of_mem_erase hx)
          · exact List.Subset.refl _
    · rcases hc : random_choice (picks retries) avail with _ | key <;>
        simp only [hc]
      · exact hsub
      · rcases ha : adapter key history with _ | text <;> simp only [ha]
        · exact ih _ _ (by
            rw [remove_key_eq_erase]
            exact fun x hx => hsub (List.mem_of_mem_erase hx))
        · exact hsub

theorem chatFinish_avail (history1 : List Entry) (r : RunResult) :
    (chatFinish history1 r).avail = r.avail := by
  simp only [chatFinish]
  split <;> rfl

theorem chatFinish_attempts (history1 : List Entry) (r : RunResult) :
    (chatFinish history1 r).attempts = r.attempts := by
  simp only [chatFinish]
  split <;> rfl

theorem chatFinish_calls (history1 : List Entry) (r : RunResult) :
    (chatFinish history1 r).calls = r.calls := by
  simp only [chatFinish]
  split <;> rfl

theorem chatComplete_no_drawError (adapter : String → List Entry → Option String)
    (picks : Nat → Nat) (allKeys avail0 : List String) (history : List Entry) :
    (chatComplete adapter picks allKeys avail0 history).outcome ≠
      Outcome.drawError := by
  unfold chatComplete
  split
  · exact chatLoop_no_drawError adapter picks allKeys history _ _ _
  · exact chatLoop_no_drawError adapter picks allKeys history _ _ _

theorem chatComplete_avail_subset (adapter : String → List Entry → Option String)
    (picks : Nat → Nat) (allKeys avail0 : List String) (history : List Entry)
    (hsub : avail0 ⊆ allKeys) :
    (chatComplete adapter picks allKeys avail0 history).avail ⊆ allKeys := by
  unfold chatComplete
  split
  · exact chatLoop_avail_subset adapter picks allKeys history _ _ _
      (List.Subset.refl _)
  · exact chatLoop_avail_subset adapter picks allKeys history _ _ _ hsub

theorem chatLoop_all_fail (adapter : String → List Entry → Option String)
    (picks : Nat → Nat) (allKeys : List String) (history : List Entry)
    (hfail : ∀ key h, adapter key h = none) (hne : allKeys ≠ []) :
    ∀ fuel avail retries,
      (chatLoop adapter picks allKeys history fuel avail retries).outcome =
          Outcome.allFailed ∧
        (chatLoop adapter picks allKeys history fuel avail retries).attempts =
          retries + fuel ∧
        (chatLoop adapter picks allKeys history fuel avail retries).calls =
          fuel := by
  intro fuel
  induction fuel with
  | zero => intro avail retries; exact ⟨rfl, rfl, rfl⟩
  | succ n ih =>
    intro avail retries
    simp only [chatLoop]
    by_cases hA : avail.isEmpty = true <;>
      simp only [hA, if_true, if_false, reset_api_keys, Bool.false_eq_true]
    · have hK : allKeys.isEmpty = false := by simpa using hne
      simp only [hK, Bool.false_eq_true, if_false]
      rcases hc : random_choice (picks retries) allKeys with _ | key
      · have := random_choice_isSome (picks retries) allKeys hne
        rw [hc] at this
        simp at this
      · simp only [hc, hfail key history]
        obtain ⟨h1, h2, h3⟩ := ih (remove_key key allKeys) (retries + 1)
        refine ⟨h1, ?_, ?_⟩
        · simp only [h2]
          omega
        · simp only [h3]
    · have hne2 : avail ≠ [] := by simpa using hA
      rcases hc : random_choice (picks retries) avail with _ | key
      · have := random_choice_isSome (picks retries) avail hne2
        rw [hc] at this
        simp at this
      · simp only [hc, hfail key history]
        obtain ⟨h1, h2, h3⟩ := ih (remove_key key avail) (retries + 1)
        refine ⟨h1, ?_, ?_⟩
        · simp only [h2]
          omega
        · simp only [h3]

theorem chatLoop_no_noCreds (adapter : String → List Entry → Option String)
    (picks : Nat → Nat) (allKeys : List String) (history : List Entry)
    (hne : allKeys ≠ []) :
    ∀ fuel avail retries,
      (chatLoop adapter picks allKeys history fuel avail retries).outcome ≠
        Outcome.noCreds := by
  intro fuel
  induction fuel with
  | zero => intro avail retries; simp [chatLoop]
  | succ n ih =>
    intro avail retries
    simp only [chatLoop]
    by_cases hA : avail.isEmpty = true <;>
      simp only [hA, if_true, if_false, reset_api_keys, Bool.false_eq_true]
    · have hK : allKeys.isEmpty = false := by simpa using hne
      simp only [hK, Bool.false_eq_true, if_false]
      rcases hc : random_choice (picks retries) allKeys with _ | key <;>
        simp only [hc]
      · simp
      · rcases ha : adapter key history with _ | text <;> simp only [ha]
        · exact ih _ _
        · simp
    · have hne2 : avail ≠ [] := by simpa using hA
      have hAe : avail.isEmpty = false := by simpa using hA
      rcases hc : random_choice (picks retries) avail with _ | key <;>
        simp only [hc]
      · have := random_choice_isSome (picks retries) avail hne2
        rw [hc] at this
        simp at this
      · rcases ha : adapter key history with _ | text <;> simp only [ha]
        · exact ih _ _
        · simp

theorem chatFinish_of_allFailed (history1 : List Entry) (r : RunResult)
    (hr : r.outcome = Outcome.allFailed) :
    chatFinish history1 r =
      ⟨Outcome.allFailed, allFailedMsg, history1, r.avail, r.attempts,
        r.calls⟩ := by
  have hpre : strStartsWith allFailedMsg "Oops!" = true := by decide
  simp [chatFinish, hr, responseContent, hpre]

theorem chatFinish_of_noCreds (history1 : List Entry) (r : RunResult)
    (hr : r.outcome = Outcome.noCreds) :
    chatFinish history1 r =
      ⟨Outcome.noCreds, noKeysMsg, history1, r.avail, r.attempts,
        r.calls⟩ := by
  have hpre : strStartsWith noKeysMsg "Oops!" = true := by decide
  simp [chatFinish, hr, responseContent, hpre]

theorem chatComplete_no_noCreds (adapter : String → List Entry → Option String)
    (picks : Nat → Nat) (allKeys avail0 : List String) (history : List Entry) :
    (chatComplete adapter picks allKeys avail0 history).outcome ≠
      Outcome.noCreds := by
  by_cases hK : allKeys = []
  · subst hK
    unfold chatComplete
    simp [chatLoop]
  · unfold chatComplete
    split
    · exact chatLoop_no_noCreds adapter picks allKeys history hK _ _ _
    · exact chatLoop_no_noCreds adapter picks allKeys history hK _ _ _

/-! ### Claim theorems -/

/-- C1: for a credential pool whose full set has size N, if every adapter
invocation fails, the retry orchestrator performs exactly N attempts (one
adapter invocation per attempt, each failure evicting the drawn credential
and incrementing the retry counter) and ends in the all-credentials-failed
outcome — not N+1 attempts and not an unbounded loop. -/
theorem chatComplete_all_fail_bounded
    (adapter : String → List Entry → Option String) (picks : Nat → Nat)
    (allKeys avail0 : List String) (history : List Entry)
    (hfail : ∀ key h, adapter key h = none) :
    (chatComplete adapter picks allKeys avail0 history).outcome =
        Outcome.allFailed ∧
      (chatComplete adapter picks allKeys avail0 history).attempts =
        allKeys.length ∧
      (chatComplete adapter picks allKeys avail0 history).calls =
        allKeys.length := by
  by_cases hK : allKeys = []
  · subst hK
    unfold chatComplete
    simp [chatLoop]
  · unfold chatComplete
    split
    · obtain ⟨h1, h2, h3⟩ := chatLoop_all_fail adapter picks allKeys history
        hfail hK allKeys.length (reset_api_keys allKeys) 0
      exact ⟨h1, by simpa using h2, h3⟩
    · obtain ⟨h1, h2, h3⟩ := chatLoop_all_fail adapter picks allKeys history
        hfail hK allKeys.length avail0 0
      exact ⟨h1, by simpa using h2, h3⟩

theorem chatComplete_all_fail_bounded_witness :
    (∀ (key : String) (h : List Entry),
        (fun (_ : String) (_ : List Entry) => (none : Option String)) key h =
          none) ∧
      ((chatComplete (fun _ _ => none) (fun _ => 0) ["a", "b"] ["a", "b"]
            []).outcome = Outcome.allFailed ∧
        (chatComplete (fun _ _ => none) (fun _ => 0) ["a", "b"] ["a", "b"]
            []).attempts = (["a", "b"] : List String).length ∧
        (chatComplete (fun _ _ => none) (fun _ => 0) ["a", "b"] ["a", "b"]
            []).calls = (["a", "b"] : List String).length) :=
  ⟨fun _ _ => rfl,
    chatComplete_all_fail_bounded (fun _ _ => none) (fun _ => 0) ["a", "b"]
      ["a", "b"] [] (fun _ _ => rfl)⟩

/-- C2 counterexample: with `ALL_API_KEYS = []` the `chat` command does not
produce the dedicated no-credentials outcome or its apology message; since
`max_api_retries = 0` the loop body never runs and the default
all-keys-used-up message is returned instead (adapter invoked zero times). -/
theorem empty_pool_yields_generic_message :
    (chat (fun _ _ => none) (fun _ => 0) [] [] [⟨Role.system, "s"⟩]
        "hi").outcome = Outcome.allFailed ∧
      (chat (fun _ _ => none) (fun _ => 0) [] [] [⟨Role.system, "s"⟩]
          "hi").outcome ≠ Outcome.noCreds ∧
      (chat (fun _ _ => none) (fun _ => 0) [] [] [⟨Role.system, "s"⟩]
          "hi").reply = allFailedMsg ∧
      (chat (fun _ _ => none) (fun _ => 0) [] [] [⟨Role.system, "s"⟩]
          "hi").reply ≠ noKeysMsg ∧
      (chat (fun _ _ => none) (fun _ => 0) [] [] [⟨Role.system, "s"⟩]
          "hi").calls = 0 := by
  decide

/-- C2 amended: when the full credential set is empty, `chat` terminates
immediately with zero attempts and zero adapter invocations, but it returns
the generic all-credentials-failed apology, not the dedicated no-credentials
one; the no-credentials branch of the loop is dead code (its outcome is
unreachable for every input). -/
theorem chat_empty_pool
    (adapter : String → List Entry → Option String) (picks : Nat → Nat)
    (avail0 : List String) (history0 : List Entry) (message : String) :
    ((chat adapter picks [] avail0 history0 message).outcome =
        Outcome.allFailed ∧
      (chat adapter picks [] avail0 history0 message).reply = allFailedMsg ∧
      (chat adapter picks [] avail0 history0 message).attempts = 0 ∧
      (chat adapter picks [] avail0 history0 message).calls = 0) ∧
    ∀ allKeys,
      (chat adapter picks allKeys avail0 history0 message).outcome ≠
        Outcome.noCreds := by
  constructor
  · have hc : chatComplete adapter picks [] avail0
        (trimAfterAppend (history0 ++ [⟨Role.user, message⟩])) =
        ⟨Outcome.allFailed, avail0, 0, 0, []⟩ := by
      unfold chatComplete
      simp [chatLoop]
    simp only [chat, hc]
    rw [chatFinish_of_allFailed _ ⟨Outcome.allFailed, avail0, 0, 0, []⟩ rfl]
    exact ⟨rfl, rfl, rfl, rfl⟩
  · intro allKeys
    simp only [chat]
    rw [chatFinish_outcome]
    exact chatComplete_no_noCreds adapter picks allKeys avail0 _

/-- C8: the pool invariant `available ⊆ all` is preserved by every operation:
`reset_api_keys` repopulates the available pool with exactly the full key
list (a value copy, so nothing done to the available pool ever changes the
full list), `remove_key` keeps the pool inside the full list, a drawn key is
always a member of the full list, and along a whole `chat` run the final
available pool is still contained in the full list. -/
theorem pool_subset_invariant
    (adapter : String → List Entry → Option String) (picks : Nat → Nat)
    (allKeys avail0 : List String) (history0 : List Entry) (message : String)
    (hsub : avail0 ⊆ allKeys) :
    reset_api_keys allKeys = allKeys ∧
      (∀ key, remove_key key avail0 ⊆ allKeys) ∧
      (∀ r key, random_choice r avail0 = some key → key ∈ allKeys) ∧
      (chat adapter picks allKeys avail0 history0 message).avail ⊆ allKeys := by
  refine ⟨rfl, ?_, ?_, ?_⟩
  · intro key x hx
    rw [remove_key_eq_erase] at hx
    exact hsub (List.mem_of_mem_erase hx)
  · intro r key hk
    exact hsub (random_choice_mem r avail0 key hk)
  · simp only [chat]
    rw [chatFinish_avail]
    exact chatComplete_avail_subset adapter picks allKeys avail0 _ hsub

theorem pool_subset_invariant_witness :
    ((["b"] : List String) ⊆ ["a", "b"]) ∧
      (reset_api_keys ["a", "b"] = ["a", "b"] ∧
        (∀ key, remove_key key ["b"] ⊆ ["a", "b"]) ∧
        (∀ r key, random_choice r ["b"] = some key → key ∈ ["a", "b"]) ∧
        (chat (fun _ _ => none) (fun _ => 0) ["a", "b"] ["b"]
            [⟨Role.system, "s"⟩] "hi").avail ⊆ ["a", "b"]) :=
  ⟨by decide,
    pool_subset_invariant (fun _ _ => none) (fun _ => 0) ["a", "b"] ["b"]
      [⟨Role.system, "s"⟩] "hi" (by decide)⟩

/-- C10: the draw (`random.choice` on the available list) is never executed
on an empty list: for every adapter, randomness stream, configured key list,
initial pool state and message, the would-be `IndexError` branch is
unreachable in the whole `chat` run. -/
theorem chat_never_draws_from_empty_pool
    (adapter : String → List Entry → Option String) (picks : Nat → Nat)
    (allKeys avail0 : List String) (history0 : List Entry) (message : String) :
    (chat adapter picks allKeys avail0 history0 message).outcome ≠
      Outcome.drawError := by
  simp only [chat]
  rw [chatFinish_outcome]
  exact chatComplete_no_drawError adapter picks allKeys avail0 _

theorem trimAfterAppend_head_cons (a : Entry) (t : List Entry) :
    (trimAfterAppend (a :: t)).head? = some a := by
  unfold trimAfterAppend trimOnce
  split
  · rfl
  · rfl

theorem trimOnce_length (bound : Nat) (history : List Entry) (hb : 1 ≤ bound)
    (hlen : history.length ≤ bound + 1) :
    (trimOnce bound history).length ≤ bound := by
  unfold trimOnce
  split
  · next hgt =>
    rw [List.length_eraseIdx history 1, if_pos (by omega)]
    omega
  · next hle => omega

/-- C4: every history reachable through the chat command's create and
append-then-trim steps keeps the original system entry at index 0 and has
length at most `MAX_HISTORY_TURNS + 1` (21 by default) after each trim. -/
theorem history_reachable_invariant (sys : Entry) (h : List Entry)
    (hr : HistReachable sys h) :
    h.head? = some sys ∧ h.length ≤ MAX_HISTORY_TURNS + 1 := by
  induction hr with
  | create =>
    refine ⟨rfl, ?_⟩
    show (1 : Nat) ≤ MAX_HISTORY_TURNS + 1
    decide
  | append h' e hr ih =>
    obtain ⟨ihead, ilen⟩ := ih
    cases h' with
    | nil => simp at ihead
    | cons a t =>
      have ha : a = sys := by simpa using ihead
      subst ha
      refine ⟨?_, ?_⟩
      · rw [List.cons_append, trimAfterAppend_head_cons]
      · have hlen2 : ((a :: t) ++ [e]).length ≤ MAX_HISTORY_TURNS + 2 := by
          simp only [List.length_append, List.length_cons,
            List.length_nil] at ilen ⊢
          omega
        exact trimOnce_length _ _ (by decide) hlen2

theorem history_reachable_invariant_witness :
    ([(⟨Role.system, "p"⟩ : Entry)].head? = some (⟨Role.system, "p"⟩ : Entry) ∧
      [(⟨Role.system, "p"⟩ : Entry)].length ≤ MAX_HISTORY_TURNS + 1) :=
  history_reachable_invariant ⟨Role.system, "p"⟩ [⟨Role.system, "p"⟩]
    HistReachable.create

/-- C7 counterexample: the code's trim is a single conditional `pop(1)`, not
a loop: on an input history of length 23 and bound 21 it leaves length 22,
which still exceeds the bound. -/
theorem trim_leaves_overlong_history :
    (trimOnce (MAX_HISTORY_TURNS + 1)
        (List.replicate 23 (⟨Role.user, "x"⟩ : Entry))).length = 22 ∧
      ¬(trimOnce (MAX_HISTORY_TURNS + 1)
            (List.replicate 23 (⟨Role.user, "x"⟩ : Entry))).length ≤
          MAX_HISTORY_TURNS + 1 := by
  decide

/-- C7 amended: the trim operation removes the entry at index 1 at most once
per call (`if len(history) > bound: history.pop(1)`), so the bound is only
guaranteed for inputs at most one over it — which is the only situation in
the program, where each append is followed by a trim: for every bound ≥ 1
and every history of length at most bound + 1, the trimmed length is at most
the bound. -/
theorem trim_single_pop_length (bound : Nat) (history : List Entry)
    (hb : 1 ≤ bound) (hlen : history.length ≤ bound + 1) :
    (trimOnce bound history).length ≤ bound :=
  trimOnce_length bound history hb hlen

theorem trim_single_pop_length_witness :
    (1 ≤ 2 ∧ (List.replicate 3 (⟨Role.user, "x"⟩ : Entry)).length ≤ 2 + 1) ∧
      (trimOnce 2 (List.replicate 3 (⟨Role.user, "x"⟩ : Entry))).length ≤ 2 :=
  ⟨⟨by decide, by decide⟩,
    trim_single_pop_length 2 (List.replicate 3 ⟨Role.user, "x"⟩) (by decide)
      (by decide)⟩

theorem trimAfterAppend_of_le (history : List Entry)
    (h : history.length ≤ MAX_HISTORY_TURNS + 1) :
    trimAfterAppend history = history := by
  unfold trimAfterAppend trimOnce
  rw [if_neg]
  omega

theorem chatFinish_of_success_not_oops (history1 : List Entry) (r : RunResult)
    (t : String) (hr : r.outcome = Outcome.success t)
    (hp : strStartsWith t "Oops!" = false) :
    chatFinish history1 r =
      ⟨Outcome.success t, t,
        trimAfterAppend (history1 ++ [⟨Role.assistant, t⟩]), r.avail,
        r.attempts, r.calls⟩ := by
  simp [chatFinish, hr, responseContent, hp]

theorem chatComplete_outcome_all_fail
    (adapter : String → List Entry → Option String) (picks : Nat → Nat)
    (allKeys avail0 : List String) (history : List Entry)
    (hfail : ∀ key h, adapter key h = none) :
    (chatComplete adapter picks allKeys avail0 history).outcome =
      Outcome.allFailed := by
  by_cases hK : allKeys = []
  · subst hK
    unfold chatComplete
    simp [chatLoop]
  · unfold chatComplete
    split
    · exact (chatLoop_all_fail adapter picks allKeys history hfail hK
        allKeys.length (reset_api_keys allKeys) 0).1
    · exact (chatLoop_all_fail adapter picks allKeys history hfail hK
        allKeys.length avail0 0).1

/-- C5 counterexample: a genuinely successful completion whose text starts
with `"Oops!"` is mistaken for the error message by the
`startswith("Oops!")` check and is not appended to the history. -/
theorem success_text_oops_not_appended :
    (chat (fun _ _ => some "Oops! x") (fun _ => 0) ["a"] ["a"]
        [⟨Role.system, "s"⟩] "hi").outcome = Outcome.success "Oops! x" ∧
      (chat (fun _ _ => some "Oops! x") (fun _ => 0) ["a"] ["a"]
          [⟨Role.system, "s"⟩] "hi").history =
        [⟨Role.system, "s"⟩, ⟨Role.user, "hi"⟩] := by
  decide

/-- C5 amended: whenever the retry orchestrator succeeds with a text that
does not start with `"Oops!"`, that text is the reply and it is appended to
the user's history as an assistant entry, after which the history is trimmed
again; a success text starting with `"Oops!"` is treated as the error
message and not appended. -/
theorem success_appended_unless_oops_prefix
    (adapter : String → List Entry → Option String) (picks : Nat → Nat)
    (allKeys avail0 : List String) (history0 : List Entry) (message t : String)
    (hsucc : (chat adapter picks allKeys avail0 history0 message).outcome =
      Outcome.success t)
    (hp : strStartsWith t "Oops!" = false) :
    (chat adapter picks allKeys avail0 history0 message).reply = t ∧
      (chat adapter picks allKeys avail0 history0 message).history =
        trimAfterAppend
          (trimAfterAppend (history0 ++ [⟨Role.user, message⟩]) ++
            [⟨Role.assistant, t⟩]) := by
  have hr : (chatComplete adapter picks allKeys avail0
      (trimAfterAppend (history0 ++ [⟨Role.user, message⟩]))).outcome =
      Outcome.success t := by
    rw [← chatFinish_outcome (trimAfterAppend (history0 ++ [⟨Role.user, message⟩]))]
    exact hsucc
  constructor <;> simp only [chat, chatFinish_of_success_not_oops _ _ t hr hp]

theorem success_appended_unless_oops_prefix_witness :
    ((chat (fun _ _ => some "ok") (fun _ => 0) ["a"] ["a"]
          [⟨Role.system, "s"⟩] "hi").outcome = Outcome.success "ok" ∧
        strStartsWith "ok" "Oops!" = false) ∧
      ((chat (fun _ _ => some "ok") (fun _ => 0) ["a"] ["a"]
            [⟨Role.system, "s"⟩] "hi").reply = "ok" ∧
        (chat (fun _ _ => some "ok") (fun _ => 0) ["a"] ["a"]
            [⟨Role.system, "s"⟩] "hi").history =
          trimAfterAppend
            (trimAfterAppend
                ([⟨Role.system, "s"⟩] ++ [⟨Role.user, "hi"⟩]) ++
              [⟨Role.assistant, "ok"⟩])) :=
  ⟨⟨by decide, by decide⟩,
    success_appended_unless_oops_prefix (fun _ _ => some "ok") (fun _ => 0)
      ["a"] ["a"] [⟨Role.system, "s"⟩] "hi" "ok" (by decide) (by decide)⟩

/-- C6 counterexample: when the pre-request history is already at the bound,
a request in which every attempt fails leaves a history that differs from
the pre-request state by more than the appended user message: the trim after
the user append also removes the oldest non-system entry. -/
theorem failed_request_also_trims_at_capacity :
    (chat (fun _ _ => none) (fun _ => 0) ["a"] ["a"]
        (⟨Role.system, "s"⟩ :: List.replicate 20 ⟨Role.user, "x"⟩)
        "m").outcome = Outcome.allFailed ∧
      (chat (fun _ _ => none) (fun _ => 0) ["a"] ["a"]
          (⟨Role.system, "s"⟩ :: List.replicate 20 ⟨Role.user, "x"⟩)
          "m").history ≠
        (⟨Role.system, "s"⟩ :: List.replicate 20 ⟨Role.user, "x"⟩) ++
          [⟨Role.user, "m"⟩] := by
  decide

/-- C6 amended: after a request in which every attempt fails, the user's
history is exactly the pre-request history with the user message appended
and then trimmed — no assistant entry is added on any failure path — and
when the pre-request history is below the bound it differs from the
pre-request state only by the appended user message. -/
theorem failure_does_not_pollute_history
    (adapter : String → List Entry → Option String) (picks : Nat → Nat)
    (allKeys avail0 : List String) (history0 : List Entry) (message : String)
    (hfail : ∀ key h, adapter key h = none) :
    (chat adapter picks allKeys avail0 history0 message).history =
        trimAfterAppend (history0 ++ [⟨Role.user, message⟩]) ∧
      ((history0 ++ [(⟨Role.user, message⟩ : Entry)]).length ≤
          MAX_HISTORY_TURNS + 1 →
        (chat adapter picks allKeys avail0 history0 message).history =
          history0 ++ [⟨Role.user, message⟩]) := by
  have hr : (chatComplete adapter picks allKeys avail0
      (trimAfterAppend (history0 ++ [⟨Role.user, message⟩]))).outcome =
      Outcome.allFailed :=
    chatComplete_outcome_all_fail adapter picks allKeys avail0 _ hfail
  have hh : (chat adapter picks allKeys avail0 history0 message).history =
      trimAfterAppend (history0 ++ [⟨Role.user, message⟩]) := by
    simp only [chat, chatFinish_of_allFailed _ _ hr]
  refine ⟨hh, fun hlen => ?_⟩
  rw [hh, trimAfterAppend_of_le _ hlen]

theorem failure_does_not_pollute_history_witness :
    (∀ (key : String) (h : List Entry),
        (fun (_ : String) (_ : List Entry) => (none : Option String)) key h =
          none) ∧
      ((chat (fun _ _ => none) (fun _ => 0) ["a"] ["a"] [⟨Role.system, "s"⟩]
            "m").history =
          trimAfterAppend ([⟨Role.system, "s"⟩] ++ [⟨Role.user, "m"⟩]) ∧
        (([(⟨Role.system, "s"⟩ : Entry)] ++
              [(⟨Role.user, "m"⟩ : Entry)]).length ≤
            MAX_HISTORY_TURNS + 1 →
          (chat (fun _ _ => none) (fun _ => 0) ["a"] ["a"]
              [⟨Role.system, "s"⟩] "m").history =
            [⟨Role.system, "s"⟩] ++ [⟨Role.user, "m"⟩])) :=
  ⟨fun _ _ => rfl,
    failure_does_not_pollute_history (fun _ _ => none) (fun _ => 0) ["a"]
      ["a"] [⟨Role.system, "s"⟩] "m" (fun _ _ => rfl)⟩

/-- C9: when an attempt succeeds, the retry loop returns the produced text
immediately: no further attempts and no eviction happen, the available pool
and the retry counter keep the value they had just before that attempt, and
exactly one adapter call is made from that point on. -/
theorem success_returns_immediately
    (adapter : String → List Entry → Option String) (picks : Nat → Nat)
    (allKeys : List String) (history : List Entry) (fuel : Nat)
    (avail : List String) (retries : Nat) (key t : String)
    (hkey : random_choice (picks retries)
        (if avail.isEmpty then reset_api_keys allKeys else avail) = some key)
    (hsucc : adapter key history = some t) :
    chatLoop adapter picks allKeys history (fuel + 1) avail retries =
      ⟨Outcome.success t,
        if avail.isEmpty then reset_api_keys allKeys else avail, retries, 1,
        (if avail.isEmpty then [Event.reset] else []) ++
          [Event.drew key, Event.succeeded t]⟩ := by
  have hne : (if avail.isEmpty then reset_api_keys allKeys else avail) ≠ [] := by
    intro h0
    rw [h0] at hkey
    simp [random_choice] at hkey
  have hE : (if avail.isEmpty then reset_api_keys allKeys else avail).isEmpty
      = false := by
    cases hI : (if avail.isEmpty then reset_api_keys allKeys else avail) with
    | nil => exact absurd hI hne
    | cons a l => rfl
  simp only [chatLoop, hE, Bool.false_eq_true, if_false, hkey, hsucc]

theorem success_returns_immediately_witness :
    (random_choice 0
          (if (["a"] : List String).isEmpty then reset_api_keys ["a"]
            else ["a"]) = some "a" ∧
        (fun (_ : String) (_ : List Entry) => some "ok") "a"
            ([] : List Entry) = some "ok") ∧
      chatLoop (fun _ _ => some "ok") (fun _ => 0) ["a"] [] (0 + 1) ["a"] 0 =
        ⟨Outcome.success "ok",
          if (["a"] : List String).isEmpty then reset_api_keys ["a"]
            else ["a"], 0, 1,
          (if (["a"] : List String).isEmpty then [Event.reset] else []) ++
            [Event.drew "a", Event.succeeded "ok"]⟩ :=
  ⟨⟨by decide, rfl⟩,
    success_returns_immediately (fun _ _ => some "ok") (fun _ => 0) ["a"] []
      0 ["a"] 0 "a" "ok" (by decide) rfl⟩

theorem noDraw_eq_nil (c : String) : noDrawBeforeResetB c [] = true := rfl

theorem noDraw_eq_reset (c : String) (rest : List Event) :
    noDrawBeforeResetB c (Event.reset :: rest) = true := rfl

theorem noDraw_eq_drew (c k : String) (rest : List Event) :
    noDrawBeforeResetB c (Event.drew k :: rest) =
      ((k != c) && noDrawBeforeResetB c rest) := rfl

theorem noDraw_eq_evicted (c k : String) (rest : List Event) :
    noDrawBeforeResetB c (Event.evicted k :: rest) =
      noDrawBeforeResetB c rest := rfl

theorem noDraw_eq_succeeded (c t : String) (rest : List Event) :
    noDrawBeforeResetB c (Event.succeeded t :: rest) =
      noDrawBeforeResetB c rest := rfl

theorem evictSticky_eq_reset (c : String) (rest : List Event) :
    evictStickyB c (Event.reset :: rest) = evictStickyB c rest := rfl

theorem evictSticky_eq_drew (c k : String) (rest : List Event) :
    evictStickyB c (Event.drew k :: rest) = evictStickyB c rest := rfl

theorem evictSticky_eq_evicted (c k : String) (rest : List Event) :
    evictStickyB c (Event.evicted k :: rest) =
      (((k != c) || noDrawBeforeResetB c rest) && evictStickyB c rest) := rfl

theorem evictSticky_eq_succeeded (c t : String) (rest : List Event) :
    evictStickyB c (Event.succeeded t :: rest) = evictStickyB c rest := rfl

theorem chatLoop_noDraw_of_not_mem
    (adapter : String → List Entry → Option String) (picks : Nat → Nat)
    (allKeys : List String) (history : List Entry) (c : String) :
    ∀ fuel avail retries, c ∉ avail →
      noDrawBeforeResetB c
        (chatLoop adapter picks allKeys history fuel avail retries).events =
        true := by
  intro fuel
  induction fuel with
  | zero => intro avail retries _; rfl
  | succ n ih =>
    intro avail retries hc
    cases avail with
    | nil =>
      simp only [chatLoop, List.isEmpty_nil, if_true, reset_api_keys]
      by_cases hKe : allKeys.isEmpty = true <;>
        simp only [hKe, if_true, if_false, Bool.false_eq_true]
      · rfl
      · rcases hcc : random_choice (picks retries) allKeys with _ | key <;>
          simp only [hcc]
        · rfl
        · rcases ha : adapter key history with _ | text <;>
            simp only [ha] <;> rfl
    | cons a as =>
      simp only [chatLoop, List.isEmpty_cons, Bool.false_eq_true, if_false]
      rcases hcc : random_choice (picks retries) (a :: as) with _ | key <;>
        simp only [hcc]
      · rfl
      · have hkc : key ≠ c := fun he => hc (he ▸ random_choice_mem _ _ _ hcc)
        rcases ha : adapter key history with _ | text <;> simp only [ha]
        · have ihr := ih (remove_key key (a :: as)) (retries + 1) (by
            rw [remove_key_eq_erase]
            exact fun hm => hc (List.mem_of_mem_erase hm))
          simp [noDraw_eq_drew, noDraw_eq_evicted, bne_iff_ne.mpr hkc, ihr]
        · simp [noDraw_eq_drew, noDraw_eq_succeeded, noDraw_eq_nil,
            bne_iff_ne.mpr hkc]

theorem chatLoop_evictSticky
    (adapter : String → List Entry → Option String) (picks : Nat → Nat)
    (allKeys : List String) (history : List Entry) (c : String)
    (hK : allKeys.Nodup) :
    ∀ fuel avail retries, avail.Nodup →
      evictStickyB c
        (chatLoop adapter picks allKeys history fuel avail retries).events =
        true := by
  intro fuel
  induction fuel with
  | zero => intro avail retries _; rfl
  | succ n ih =>
    intro avail retries hnd
    cases avail with
    | nil =>
      simp only [chatLoop, List.isEmpty_nil, if_true, reset_api_keys]
      by_cases hKe : allKeys.isEmpty = true <;>
        simp only [hKe, if_true, if_false, Bool.false_eq_true]
      · rfl
      · rcases hcc : random_choice (picks retries) allKeys with _ | key <;>
          simp only [hcc]
        · rfl
        · rcases ha : adapter key history with _ | text <;> simp only [ha]
          · have hrec := ih (remove_key key allKeys) (retries + 1) (by
              rw [remove_key_eq_erase]
              exact hK.erase key)
            have hfirst : ((key != c) || noDrawBeforeResetB c
                (chatLoop adapter picks allKeys history n
                  (remove_key key allKeys) (retries + 1)).events) = true := by
              by_cases hkc : key = c
              · have hnm : c ∉ remove_key key allKeys := by
                  rw [remove_key_eq_erase, hkc]
                  exact hK.not_mem_erase
                have hnd2 := chatLoop_noDraw_of_not_mem adapter picks allKeys
                  history c n (remove_key key allKeys) (retries + 1) hnm
                simp [hnd2]
              · simp [bne_iff_ne.mpr hkc]
            simp [evictSticky_eq_reset, evictSticky_eq_drew,
              evictSticky_eq_evicted, hfirst, hrec]
          · rfl
    | cons a as =>
      simp only [chatLoop, List.isEmpty_cons, Bool.false_eq_true, if_false]
      rcases hcc : random_choice (picks retries) (a :: as) with _ | key <;>
        simp only [hcc]
      · rfl
      · rcases ha : adapter key history with _ | text <;> simp only [ha]
        · have hrec := ih (remove_key key (a :: as)) (retries + 1) (by
            rw [remove_key_eq_erase]
            exact hnd.erase key)
          have hfirst : ((key != c) || noDrawBeforeResetB c
              (chatLoop adapter picks allKeys history n
                (remove_key key (a :: as)) (retries + 1)).events) = true := by
            by_cases hkc : key = c
            · have hnm : c ∉ remove_key key (a :: as) := by
                rw [remove_key_eq_erase, hkc]
                exact hnd.not_mem_erase
              have hnd2 := chatLoop_noDraw_of_not_mem adapter picks allKeys
                history c n (remove_key key (a :: as)) (retries + 1) hnm
              simp [hnd2]
            · simp [bne_iff_ne.mpr hkc]
          simp [evictSticky_eq_drew, evictSticky_eq_evicted, hfirst, hrec]
        · rfl

/-- C3 counterexample: with a duplicated configured credential
(`ALL_API_KEYS = ["k", "k"]`) and an always-failing adapter, the evicted
credential "k" is drawn again in the very next iteration of the same
generation — eviction removes only the first copy from the list, and no
reset happens between the eviction and the re-draw. -/
theorem duplicate_key_redrawn_after_eviction :
    (chatComplete (fun _ _ => none) (fun _ => 0) ["k", "k"] ["k", "k"]
          []).events =
        [Event.drew "k", Event.evicted "k", Event.drew "k",
          Event.evicted "k"] ∧
      evictStickyB "k"
        (chatComplete (fun _ _ => none) (fun _ => 0) ["k", "k"] ["k", "k"]
            []).events = false := by
  decide

/-- C3 amended: provided the configured credentials are pairwise distinct
(and the starting pool is a sublist of the configured list, as every
reachable pool state is), eviction is sticky within a generation: in the
event trace of any run, after `evict(c)` no draw before the next reset
returns `c`.  With duplicated configured credentials the property fails,
since eviction removes only the first copy. -/
theorem evicted_key_not_redrawn
    (adapter : String → List Entry → Option String) (picks : Nat → Nat)
    (allKeys avail0 : List String) (history : List Entry) (c : String)
    (hK : allKeys.Nodup) (hsub : avail0.Sublist allKeys) :
    evictStickyB c
      (chatComplete adapter picks allKeys avail0 history).events = true := by
  have h0 : avail0.Nodup := hK.sublist hsub
  unfold chatComplete
  split
  · exact chatLoop_evictSticky adapter picks allKeys history c hK
      allKeys.length (reset_api_keys allKeys) 0 hK
  · exact chatLoop_evictSticky adapter picks allKeys history c hK
      allKeys.length avail0 0 h0

theorem evicted_key_not_redrawn_witness :
    ((["a", "b"] : List String).Nodup ∧
        (["a", "b"] : List String).Sublist ["a", "b"]) ∧
      evictStickyB "a"
        (chatComplete (fun _ _ => none) (fun _ => 0) ["a", "b"] ["a", "b"]
            []).events = true :=
  ⟨⟨by decide, by decide⟩,
    evicted_key_not_redrawn (fun _ _ => none) (fun _ => 0) ["a", "b"]
      ["a", "b"] [] "a" (by decide) (by decide)⟩
